import Mathlib

/-!
Shallow embedding of the scale engine of the custom-linear-scale repository.

The embedded code is the final variant of `createCustomScale` together with
its callers (`drawScale`, `updateIndicatorAndConfidence`), the tick
classification logic of `drawScale`, the two `watch` registrations of
`LinearScale.vue`, and the `parsedWeights` computed property of the host
application.  Numeric values are modelled as rationals; JS objects used as
dictionaries are modelled as association lists with last-write-wins lookup;
`d3.scaleLinear` is modelled by its defining affine formula (d3 does not
clamp by default).
-/

namespace CustomLinearScale

/-- Orientation prop of the component: the string prop with values
materialized as `horizontal` and `vertical`. -/
inductive Orient
  | horizontal
  | vertical
deriving DecidableEq

/-- Test mirroring the JS comparisons `orientation === 'horizontal'`. -/
def Orient.isHorizontal : Orient → Bool
  | .horizontal => true
  | .vertical => false

/-- Model of `d3.scaleLinear().domain([d0, d1]).range([r0, r1])` applied to
`v`: normalize `v` inside the domain and rescale into the range.  d3 does not
clamp, so the same affine formula applies outside `[d0, d1]`. -/
def d3ScaleLinear (d0 d1 r0 r1 v : ℚ) : ℚ :=
  r0 + (v - d0) / (d1 - d0) * (r1 - r0)

/-- Lookup in a JS object modelled as an association list written in program
order: a later assignment to the same key overrides an earlier one, and a
missing key yields `none` (JS `undefined`). -/
def jsLookup : List (ℚ × ℚ) → ℚ → Option ℚ
  | [], _ => none
  | (k, p) :: rest, q =>
    match jsLookup rest q with
    | some r => some r
    | none => if k = q then some p else none

/-- The loop of `createCustomScale` that walks `sortedMajorTicks[i+1]` for
`i = 0 .. length-2`, accumulating `currentPixelPosition` by
`weights[i] * effectiveLength` (added for horizontal, subtracted for
vertical) and recording `rangePoints[sortedMajorTicks[i+1]]`. -/
def rangePointsLoop (horiz : Bool) (eff : ℚ) : List ℚ → List ℚ → ℚ → List (ℚ × ℚ)
  | t :: ts, w :: ws, cur =>
    let next := if horiz then cur + w * eff else cur - w * eff
    (t, next) :: rangePointsLoop horiz eff ts ws next
  | _, _, _ => []

/-- The `rangePoints` object of `createCustomScale`: the first sorted tick is
assigned the starting pixel, then the loop fills in the rest. -/
def buildRangePoints (horiz : Bool) (sorted ws : List ℚ) (startPx eff : ℚ) :
    List (ℚ × ℚ) :=
  match sorted with
  | [] => []
  | t :: ts => (t, startPx) :: rangePointsLoop horiz eff ts ws startPx

/-- The in-loop segment test of `customScale`:
`(value >= domainStart && value <= domainEnd) ||
 (value <= domainStart && value >= domainEnd)`. -/
def segTest (v : ℚ) (p : ℚ × ℚ) : Bool :=
  decide ((p.1 ≤ v ∧ v ≤ p.2) ∨ (v ≤ p.1 ∧ p.2 ≤ v))

/-- Linear scan over the consecutive pairs of `sortedMajorTicks` performed by
the loop of `customScale`; the first pair passing `segTest` is used. -/
def findSegment (sorted : List ℚ) (v : ℚ) : Option (ℚ × ℚ) :=
  (sorted.zip sorted.tail).find? (segTest v)

/-- The `customScale` closure returned by `createCustomScale` on the valid
path.  A segment lookup that would read an absent `rangePoints` key (a JS
`undefined`) is modelled by `none`; the final fallback interpolates between
the first and last sorted ticks over the whole pixel span. -/
def customScaleFn (sorted : List ℚ) (rp : List (ℚ × ℚ)) (v : ℚ) : Option ℚ :=
  match findSegment sorted v with
  | some (ds, de) =>
    match jsLookup rp ds, jsLookup rp de with
    | some rs, some re => some (d3ScaleLinear ds de rs re v)
    | _, _ => none
  | none =>
    match sorted.head?, sorted.getLast? with
    | some f, some l =>
      match jsLookup rp f, jsLookup rp l with
      | some rf, some rl => some (d3ScaleLinear f l rf rl v)
      | _, _ => none
    | _, _ => none

/-- Result of `createCustomScale`: the mapping function together with the
`rangePoints` dictionary, the `effectiveLength` property set on the valid
path (absent, i.e. `undefined`, on the fallback path), and whether the
invalid-input fallback branch was taken (the branch that logs a
configuration error to the console). -/
structure ScaleResult where
  forward : ℚ → Option ℚ
  rangePoints : List (ℚ × ℚ)
  effectiveLength : Option ℚ
  fallback : Bool

/-- Embedding of `createCustomScale(totalDimension, majorTicks, weights,
orientation, padding)` from `LinearScale.vue`.  If `majorTicks.length < 2`
or `weights.length !== majorTicks.length - 1`, it logs an error and returns
a plain `d3.scaleLinear` with domain `[-10, 10]` and range
`[padding, totalDimension - padding]` (reversed for vertical).  Otherwise it
sorts the ticks ascending, computes the effective length between the padded
endpoints, accumulates `rangePoints` and returns the `customScale`
closure. -/
def createCustomScale (totalDimension : ℚ) (majorTicks ws : List ℚ)
    (orientation : Orient) (padding : ℚ) : ScaleResult :=
  if majorTicks.length < 2 ∨ ws.length ≠ majorTicks.length - 1 then
    let startPx := if orientation.isHorizontal then padding else totalDimension - padding
    let endPx := if orientation.isHorizontal then totalDimension - padding else padding
    { forward := fun v => some (d3ScaleLinear (-10) 10 startPx endPx v)
      rangePoints := []
      effectiveLength := none
      fallback := true }
  else
    let sorted := majorTicks.insertionSort (· ≤ ·)
    let startPx := if orientation.isHorizontal then padding else totalDimension - padding
    let endPx := if orientation.isHorizontal then totalDimension - padding else padding
    let eff := if orientation.isHorizontal then endPx - startPx else startPx - endPx
    let rp := buildRangePoints orientation.isHorizontal sorted ws startPx eff
    { forward := customScaleFn sorted rp
      rangePoints := rp
      effectiveLength := some eff
      fallback := false }

/-- Pixel coordinate recorded for a breakpoint: a read of the
`rangePoints` dictionary of the built scale. -/
def pixelOf (s : ScaleResult) (b : ℚ) : Option ℚ :=
  jsLookup s.rangePoints b

/-- The weight-sum check of the host application's `parsedWeights` computed
property: `Math.abs(sum - 1.0) > 0.001` raises the `weightsSumError` flag. -/
def weightsSumError (ws : List ℚ) : Bool :=
  decide (1 / 1000 < |ws.sum - 1|)

/-- The early-return part of `parsedWeights`: when the major ticks are
nonempty and the weight count does not match, the weights are replaced by
`[]`; otherwise the parsed weights are passed through unchanged (in
particular they are passed through even when `weightsSumError` fires). -/
def parsedWeights (majors ws : List ℚ) : List ℚ :=
  if 0 < majors.length ∧ ws.length ≠ majors.length - 1 then [] else ws

/-- Scenario A configuration of the spec: breakpoints
`[-10,-5,-1,0,1,5,10]`, weights `[0.1,0.1,0.3,0.3,0.1,0.1]`, total extent
`900`, padding `50`, horizontal orientation. -/
def scenarioA : ScaleResult :=
  createCustomScale 900 [-10, -5, -1, 0, 1, 5, 10]
    [1/10, 1/10, 3/10, 3/10, 1/10, 1/10] .horizontal 50

/-- Visual class assigned to a tick by the `.each` callback of `drawScale`:
major (length 20, bold label), intermediate (length 10), minor (length 5),
or the defensive fallback branch for values in none of the three props. -/
inductive TickClass
  | major
  | intermediate
  | minor
  | unclassified
deriving DecidableEq

/-- The `allTickValues` list of `drawScale`:
`[...new Set([...majorTicks, ...minorTicks, ...intermediateTicks])]` sorted
ascending with `sort((a, b) => a - b)`.  The JS `Set` keeps first
occurrences while `List.dedup` keeps last occurrences, but after sorting a
duplicate-free list of numbers the result is the same list. -/
def allTickValues (majors minors inters : List ℚ) : List ℚ :=
  ((majors ++ minors ++ inters).dedup).insertionSort (· ≤ ·)

/-- The classification cascade of `drawScale`: membership in `majorTicks`
wins over `intermediateTicks`, which wins over `minorTicks`. -/
def classifyTick (majors minors inters : List ℚ) (d : ℚ) : TickClass :=
  if d ∈ majors then .major
  else if d ∈ inters then .intermediate
  else if d ∈ minors then .minor
  else .unclassified

/-- The component props of `LinearScale.vue` that appear in one of the two
`watch` registrations. -/
inductive ComponentProp
  | valueProp
  | confidenceRangePercent
  | indicatorColor
  | indicatorOpacity
  | confidenceColor
  | confidenceOpacity
  | confidenceBoxCrossDimension
  | transitionDuration
  | orientationField
  | scalePadding
  | majorTicksProp
  | minorTicksProp
  | intermediateTicksProp
  | weightsProp
  | indicatorSize
  | indicatorDistancePercent
  | majorTickTextOffset
deriving DecidableEq

/-- Sources of the first `watch` registration, whose handler calls only
`updateIndicatorAndConfidence`. -/
def geometryWatchProps : List ComponentProp :=
  [.valueProp, .confidenceRangePercent, .indicatorColor, .indicatorOpacity,
   .confidenceColor, .confidenceOpacity, .confidenceBoxCrossDimension,
   .transitionDuration]

/-- Sources of the second (deep) `watch` registration, whose handler calls
`drawScale` (which rebuilds the scale via `createCustomScale` and ends with
one `updateIndicatorAndConfidence` call). -/
def rebuildWatchProps : List ComponentProp :=
  [.orientationField, .scalePadding, .majorTicksProp, .minorTicksProp,
   .intermediateTicksProp, .weightsProp, .indicatorSize,
   .indicatorDistancePercent, .majorTickTextOffset]

/-- Number of `createCustomScale` invocations triggered by a change event on
one prop: `drawScale` runs exactly when the prop is in the rebuild watch
list, and calls `createCustomScale` once. -/
def rebuildRunsOf (p : ComponentProp) : Nat :=
  if p ∈ rebuildWatchProps then 1 else 0

/-- Number of `updateIndicatorAndConfidence` invocations triggered by a
change event on one prop: once from the geometry watcher if the prop is in
its source list, plus once at the end of `drawScale` if the prop is in the
rebuild watch list. -/
def geometryRunsOf (p : ComponentProp) : Nat :=
  (if p ∈ geometryWatchProps then 1 else 0) +
    (if p ∈ rebuildWatchProps then 1 else 0)

/-- Total `createCustomScale` invocations over a sequence of prop-change
events. -/
def totalRebuildRuns (evs : List ComponentProp) : Nat :=
  (evs.map rebuildRunsOf).sum

/-- Total `updateIndicatorAndConfidence` invocations over a sequence of
prop-change events. -/
def totalGeometryRuns (evs : List ComponentProp) : Nat :=
  (evs.map geometryRunsOf).sum

/-! ### Lookup lemmas -/

theorem jsLookup_isSome_iff (m : List (ℚ × ℚ)) (k : ℚ) :
    (jsLookup m k).isSome = true ↔ k ∈ m.map Prod.fst := by
  induction m with
  | nil => simp [jsLookup]
  | cons a rest ih =>
    rw [jsLookup]
    cases h : jsLookup rest k with
    | some r =>
      rw [h] at ih
      simp only [Option.isSome_some, true_iff] at ih
      simp [ih]
    | none =>
      rw [h] at ih
      simp only [Option.isSome_none, Bool.false_eq_true, false_iff] at ih
      rcases eq_or_ne a.1 k with hak | hak
      · simp [hak]
      · simp [hak, ih, Ne.symm hak]

theorem mem_of_jsLookup_eq_some {m : List (ℚ × ℚ)} {k p : ℚ}
    (h : jsLookup m k = some p) : (k, p) ∈ m := by
  induction m with
  | nil => simp [jsLookup] at h
  | cons a rest ih =>
    rw [jsLookup] at h
    cases h2 : jsLookup rest k with
    | some r =>
      rw [h2] at h
      cases h
      exact List.mem_cons_of_mem _ (ih h2)
    | none =>
      rw [h2] at h
      by_cases hak : a.1 = k
      · rw [if_pos hak] at h
        cases h
        subst hak
        exact List.mem_cons_self a rest
      · rw [if_neg hak] at h
        cases h

theorem jsLookup_eq_some_of_mem {m : List (ℚ × ℚ)}
    (hn : (m.map Prod.fst).Nodup) {k p : ℚ} (hm : (k, p) ∈ m) :
    jsLookup m k = some p := by
  induction m with
  | nil => simp at hm
  | cons a rest ih =>
    simp only [List.map_cons, List.nodup_cons] at hn
    obtain ⟨hna, hnr⟩ := hn
    rw [jsLookup]
    rcases List.mem_cons.mp hm with heq | hmem
    · have hk : a.1 = k := by rw [← heq]
      have hnone : jsLookup rest k = none := by
        cases hcase : jsLookup rest k with
        | none => rfl
        | some r =>
          exact absurd ((jsLookup_isSome_iff rest k).mp (by simp [hcase]))
            (hk ▸ hna)
      rw [hnone, if_pos hk]
      have hp : a.2 = p := by rw [← heq]
      rw [hp]
    · rw [ih hnr hmem]

/-! ### rangePoints structure lemmas -/

theorem rangePointsLoop_nil (horiz : Bool) (eff : ℚ) (ws : List ℚ) (cur : ℚ) :
    rangePointsLoop horiz eff [] ws cur = [] := rfl

theorem rangePointsLoop_nil_weights (horiz : Bool) (eff t cur : ℚ) (ts : List ℚ) :
    rangePointsLoop horiz eff (t :: ts) [] cur = [] := rfl

theorem rangePointsLoop_cons (horiz : Bool) (eff t w cur : ℚ) (ts ws : List ℚ) :
    rangePointsLoop horiz eff (t :: ts) (w :: ws) cur =
      (t, if horiz then cur + w * eff else cur - w * eff) ::
        rangePointsLoop horiz eff ts ws
          (if horiz then cur + w * eff else cur - w * eff) := rfl

theorem rangePointsLoop_map_fst (horiz : Bool) (eff : ℚ) :
    ∀ (ts ws : List ℚ) (cur : ℚ), ts.length ≤ ws.length →
      (rangePointsLoop horiz eff ts ws cur).map Prod.fst = ts := by
  intro ts
  induction ts with
  | nil => intro ws cur _; rw [rangePointsLoop_nil]; rfl
  | cons t ts ih =>
    intro ws cur h
    cases ws with
    | nil => simp at h
    | cons w ws =>
      rw [rangePointsLoop_cons, List.map_cons,
        ih ws _ (Nat.le_of_succ_le_succ h)]

theorem rangePointsLoop_snd_lb (eff : ℚ) (heff : 0 ≤ eff) :
    ∀ (ts ws : List ℚ) (cur : ℚ), (∀ w ∈ ws, 0 ≤ w) →
      ∀ p ∈ rangePointsLoop true eff ts ws cur, cur ≤ p.2 := by
  intro ts
  induction ts with
  | nil => intro ws cur _ p hp; rw [rangePointsLoop_nil] at hp; simp at hp
  | cons t ts ih =>
    intro ws cur hws p hp
    cases ws with
    | nil => rw [rangePointsLoop_nil_weights] at hp; simp at hp
    | cons w ws =>
      rw [rangePointsLoop_cons] at hp
      have hcur : cur ≤ cur + w * eff := by
        have := mul_nonneg (hws w (List.mem_cons_self w ws)) heff
        linarith
      rcases List.mem_cons.mp hp with heq | hmem
      · rw [heq]; simpa using hcur
      · have := ih ws _ (fun x hx => hws x (List.mem_cons_of_mem w hx)) p
          (by simpa using hmem)
        simp only [if_true] at this
        calc cur ≤ cur + w * eff := hcur
          _ ≤ p.2 := by simpa using this

theorem rangePointsLoop_snd_pairwise (eff : ℚ) (heff : 0 ≤ eff) :
    ∀ (ts ws : List ℚ) (cur : ℚ), (∀ w ∈ ws, 0 ≤ w) →
      (rangePointsLoop true eff ts ws cur).Pairwise (fun x y => x.2 ≤ y.2) := by
  intro ts
  induction ts with
  | nil => intro ws cur _; rw [rangePointsLoop_nil]; exact List.Pairwise.nil
  | cons t ts ih =>
    intro ws cur hws
    cases ws with
    | nil => rw [rangePointsLoop_nil_weights]; exact List.Pairwise.nil
    | cons w ws =>
      rw [rangePointsLoop_cons]
      refine List.pairwise_cons.mpr ⟨?_, ih ws _
        (fun x hx => hws x (List.mem_cons_of_mem w hx))⟩
      intro q hq
      have := rangePointsLoop_snd_lb eff heff ts ws _
        (fun x hx => hws x (List.mem_cons_of_mem w hx)) q (by simpa using hq)
      simpa using this

theorem buildRangePoints_map_fst (horiz : Bool) (sorted ws : List ℚ) (s eff : ℚ)
    (h : sorted.length ≤ ws.length + 1) :
    (buildRangePoints horiz sorted ws s eff).map Prod.fst = sorted := by
  cases sorted with
  | nil => rfl
  | cons t ts =>
    rw [buildRangePoints, List.map_cons,
      rangePointsLoop_map_fst horiz eff ts ws s (by simpa using h)]

theorem buildRangePoints_snd_pairwise (sorted ws : List ℚ) (s eff : ℚ)
    (heff : 0 ≤ eff) (hws : ∀ w ∈ ws, 0 ≤ w) :
    (buildRangePoints true sorted ws s eff).Pairwise (fun x y => x.2 ≤ y.2) := by
  cases sorted with
  | nil => exact List.Pairwise.nil
  | cons t ts =>
    rw [buildRangePoints]
    refine List.pairwise_cons.mpr ⟨?_, rangePointsLoop_snd_pairwise eff heff ts ws s hws⟩
    intro q hq
    exact rangePointsLoop_snd_lb eff heff ts ws s hws q hq

/-! ### Sorted-list lemmas -/

theorem pairwise_mem_cases {α : Type _} {R : α → α → Prop} :
    ∀ {l : List α}, l.Pairwise R → ∀ {x y : α}, x ∈ l → y ∈ l →
      x = y ∨ R x y ∨ R y x := by
  intro l hl
  induction hl with
  | nil => intro x y hx _; simp at hx
  | cons ha _ ih =>
    intro x y hx hy
    rcases List.mem_cons.mp hx with hx1 | hx2
    · rcases List.mem_cons.mp hy with hy1 | hy2
      · exact Or.inl (hx1.trans hy1.symm)
      · exact Or.inr (Or.inl (hx1 ▸ ha y hy2))
    · rcases List.mem_cons.mp hy with hy1 | hy2
      · exact Or.inr (Or.inr (hy1 ▸ ha x hx2))
      · exact ih hx2 hy2

theorem sorted_head_le {l : List ℚ} (hl : l.Pairwise (· < ·)) {a x : ℚ}
    (hh : l.head? = some a) (hx : x ∈ l) : a ≤ x := by
  cases l with
  | nil => simp at hh
  | cons b t =>
    cases hh
    rcases List.mem_cons.mp hx with rfl | hx
    · exact le_refl x
    · exact le_of_lt ((List.pairwise_cons.mp hl).1 x hx)

theorem sorted_le_getLast : ∀ {l : List ℚ}, l.Pairwise (· < ·) → ∀ {a : ℚ},
    l.getLast? = some a → ∀ x ∈ l, x ≤ a := by
  intro l
  induction l with
  | nil => intro _ a hla; simp at hla
  | cons b t ih =>
    intro hl a hla x hx
    cases t with
    | nil =>
      cases hla
      rcases List.mem_cons.mp hx with h1 | h2
      · exact le_of_eq h1
      · simp at h2
    | cons c t2 =>
      rw [List.getLast?_cons_cons] at hla
      have htail := (List.pairwise_cons.mp hl).2
      rcases List.mem_cons.mp hx with h1 | h2
      · have hca : c ≤ a := ih htail hla c (List.mem_cons_self c t2)
        have hbc : b < c := (List.pairwise_cons.mp hl).1 c (List.mem_cons_self c t2)
        rw [h1]
        linarith
      · exact ih htail hla x h2

theorem sorted_head_lt_getLast {l : List ℚ} (hl : l.Pairwise (· < ·))
    (h2 : 2 ≤ l.length) {f lst : ℚ}
    (hh : l.head? = some f) (hla : l.getLast? = some lst) : f < lst := by
  cases l with
  | nil => simp at h2
  | cons x t =>
    cases t with
    | nil => simp at h2
    | cons y t2 =>
      cases hh
      rw [List.getLast?_cons_cons] at hla
      have hmem : lst ∈ y :: t2 := List.mem_of_mem_getLast? (Option.mem_def.mpr hla)
      exact (List.pairwise_cons.mp hl).1 lst hmem

/-! ### Consecutive-pair (segment) lemmas -/

theorem zip_tail_mem {l : List ℚ} {p : ℚ × ℚ} (hp : p ∈ l.zip l.tail) :
    p.1 ∈ l ∧ p.2 ∈ l := by
  obtain ⟨h1, h2⟩ := List.of_mem_zip (by exact hp)
  exact ⟨h1, List.mem_of_mem_tail h2⟩

theorem zip_tail_lt {l : List ℚ} (hl : l.Pairwise (· < ·)) :
    ∀ p ∈ l.zip l.tail, p.1 < p.2 := by
  induction l with
  | nil => intro p hp; simp at hp
  | cons a t ih =>
    intro p hp
    cases t with
    | nil => simp at hp
    | cons b t2 =>
      simp only [List.tail_cons, List.zip_cons_cons] at hp
      rcases List.mem_cons.mp hp with rfl | hp
      · exact (List.pairwise_cons.mp hl).1 b (List.mem_cons_self b t2)
      · have := ih (List.pairwise_cons.mp hl).2 p
        apply this
        simpa using hp

theorem zip_tail_pairwise {l : List ℚ} (hl : l.Pairwise (· < ·)) :
    (l.zip l.tail).Pairwise (fun p q => p.2 ≤ q.1) := by
  induction l with
  | nil => exact List.Pairwise.nil
  | cons a t ih =>
    cases t with
    | nil => exact List.Pairwise.nil
    | cons b t2 =>
      simp only [List.tail_cons, List.zip_cons_cons]
      refine List.pairwise_cons.mpr ⟨?_, by simpa using ih (List.pairwise_cons.mp hl).2⟩
      intro q hq
      have hq1 : q.1 ∈ b :: t2 := (zip_tail_mem (by simpa using hq)).1
      exact sorted_head_le (List.pairwise_cons.mp hl).2 rfl hq1

theorem findSegment_eq_none {l : List ℚ} (hl : l.Pairwise (· < ·)) {f lst v : ℚ}
    (hh : l.head? = some f) (hla : l.getLast? = some lst)
    (hout : v < f ∨ lst < v) : findSegment l v = none := by
  rw [findSegment, List.find?_eq_none]
  intro p hp
  have h12 := zip_tail_lt hl p hp
  have hm := zip_tail_mem hp
  have h1f : f ≤ p.1 := sorted_head_le hl hh hm.1
  have h2l : p.2 ≤ lst := sorted_le_getLast hl hla p.2 hm.2
  simp only [segTest, decide_eq_true_eq, not_or, not_and, not_le]
  constructor
  · intro h1
    rcases hout with h | h <;> linarith
  · intro h1
    rcases hout with h | h <;> linarith

theorem findSegment_isSome : ∀ {l : List ℚ}, l.Pairwise (· < ·) →
    ∀ {f lst v : ℚ}, l.head? = some f → l.getLast? = some lst →
      2 ≤ l.length → f ≤ v → v ≤ lst → (findSegment l v).isSome = true := by
  intro l
  induction l with
  | nil => intro _ f lst v _ _ h2; simp at h2
  | cons a t ih =>
    intro hl f lst v hh hla h2 hfv hvl
    cases t with
    | nil => simp at h2
    | cons b t2 =>
      cases hh
      rw [List.getLast?_cons_cons] at hla
      rw [findSegment]
      simp only [List.tail_cons, List.zip_cons_cons, List.find?_cons]
      by_cases hvb : v ≤ b
      · have htrue : segTest v (a, b) = true := by
          simp only [segTest, decide_eq_true_eq]
          exact Or.inl ⟨hfv, hvb⟩
        rw [htrue]
        simp
      · have hbv : b < v := lt_of_not_le hvb
        have htest : segTest v (a, b) = false := by
          have hfb : a < b :=
            (List.pairwise_cons.mp hl).1 b (List.mem_cons_self b t2)
          simp only [segTest, decide_eq_false_iff_not, not_or, not_and, not_le]
          exact ⟨fun _ => hbv, fun h => absurd (le_trans h hfb.le) (not_le.mpr hbv)⟩
        rw [htest]
        have hlen2 : 2 ≤ (b :: t2).length := by
          cases t2 with
          | nil =>
            cases hla
            exact absurd hvl (not_le.mpr hbv)
          | cons c t3 => simp
        have hrec := ih (List.pairwise_cons.mp hl).2 rfl hla hlen2 hbv.le hvl
        rw [findSegment] at hrec
        simpa using hrec

theorem findSegment_spec {l : List ℚ} (hl : l.Pairwise (· < ·)) {v : ℚ}
    {p : ℚ × ℚ} (h : findSegment l v = some p) :
    p ∈ l.zip l.tail ∧ p.1 ≤ v ∧ v ≤ p.2 ∧ p.1 < p.2 := by
  rw [findSegment] at h
  have hmem := List.mem_of_find?_eq_some h
  have htest := List.find?_some h
  have hlt := zip_tail_lt hl p hmem
  simp only [segTest, decide_eq_true_eq] at htest
  rcases htest with ⟨h1, h2⟩ | ⟨h1, h2⟩
  · exact ⟨hmem, h1, h2, hlt⟩
  · exact absurd hlt (by intro h3; linarith)

/-! ### d3ScaleLinear lemmas -/

theorem d3ScaleLinear_mono {d0 d1 r0 r1 : ℚ} (hd : d0 < d1) (hr : r0 ≤ r1)
    {u v : ℚ} (huv : u ≤ v) :
    d3ScaleLinear d0 d1 r0 r1 u ≤ d3ScaleLinear d0 d1 r0 r1 v := by
  unfold d3ScaleLinear
  have hD : (0:ℚ) < d1 - d0 := by linarith
  have hR : (0:ℚ) ≤ r1 - r0 := by linarith
  have hdiv : (u - d0) / (d1 - d0) ≤ (v - d0) / (d1 - d0) :=
    (div_le_div_iff_of_pos_right hD).mpr (by linarith)
  exact add_le_add_left (mul_le_mul_of_nonneg_right hdiv hR) r0

theorem d3ScaleLinear_left (d0 d1 r0 r1 : ℚ) :
    d3ScaleLinear d0 d1 r0 r1 d0 = r0 := by
  unfold d3ScaleLinear
  simp

theorem d3ScaleLinear_right {d0 d1 : ℚ} (h : d0 ≠ d1) (r0 r1 : ℚ) :
    d3ScaleLinear d0 d1 r0 r1 d1 = r1 := by
  unfold d3ScaleLinear
  rw [div_self (sub_ne_zero.mpr (Ne.symm h))]
  ring

theorem d3ScaleLinear_bounds {d0 d1 r0 r1 v : ℚ} (hd : d0 < d1) (hr : r0 ≤ r1)
    (h1 : d0 ≤ v) (h2 : v ≤ d1) :
    r0 ≤ d3ScaleLinear d0 d1 r0 r1 v ∧ d3ScaleLinear d0 d1 r0 r1 v ≤ r1 := by
  constructor
  · have := d3ScaleLinear_mono hd hr h1
    rwa [d3ScaleLinear_left] at this
  · have := d3ScaleLinear_mono hd hr h2
    rwa [d3ScaleLinear_right hd.ne] at this

/-! ### Pixel-order transfer -/

theorem rp_snd_mono {rp : List (ℚ × ℚ)} (hk : rp.Pairwise (fun x y => x.1 < y.1))
    (hp : rp.Pairwise (fun x y => x.2 ≤ y.2)) {x y : ℚ × ℚ}
    (hx : x ∈ rp) (hy : y ∈ rp) (hxy : x.1 ≤ y.1) : x.2 ≤ y.2 := by
  rcases pairwise_mem_cases (hk.and hp) hx hy with rfl | ⟨_, h⟩ | ⟨h, _⟩
  · exact le_refl _
  · exact h
  · exact absurd hxy (not_le.mpr h)

/-! ### customScaleFn branch lemmas -/

theorem customScaleFn_of_found {l : List ℚ} {rp : List (ℚ × ℚ)}
    {v ds de rs re : ℚ} (hfind : findSegment l v = some (ds, de))
    (hrs : jsLookup rp ds = some rs) (hre : jsLookup rp de = some re) :
    customScaleFn l rp v = some (d3ScaleLinear ds de rs re v) := by
  simp only [customScaleFn, hfind, hrs, hre]

theorem customScaleFn_of_none {l : List ℚ} {rp : List (ℚ × ℚ)}
    {v f lst rf rl : ℚ} (hfind : findSegment l v = none)
    (hh : l.head? = some f) (hla : l.getLast? = some lst)
    (hrf : jsLookup rp f = some rf) (hrl : jsLookup rp lst = some rl) :
    customScaleFn l rp v = some (d3ScaleLinear f lst rf rl v) := by
  simp only [customScaleFn, hfind, hh, hla, hrf, hrl]

/-- For a value between the first and last sorted tick, the scan of
`customScale` finds a containing segment and interpolates inside it. -/
theorem customScaleFn_inside {l : List ℚ} {rp : List (ℚ × ℚ)}
    (hl : l.Pairwise (· < ·)) (hkeys : rp.map Prod.fst = l)
    {f lst v pv : ℚ} (hh : l.head? = some f) (hla : l.getLast? = some lst)
    (h2 : 2 ≤ l.length) (hfv : f ≤ v) (hvl : v ≤ lst)
    (hv : customScaleFn l rp v = some pv) :
    ∃ ds de rs re, (ds, de) ∈ l.zip l.tail ∧
      jsLookup rp ds = some rs ∧ jsLookup rp de = some re ∧
      ds ≤ v ∧ v ≤ de ∧ ds < de ∧
      pv = d3ScaleLinear ds de rs re v := by
  have hsome := findSegment_isSome hl hh hla h2 hfv hvl
  obtain ⟨⟨ds, de⟩, hfind⟩ := Option.isSome_iff_exists.mp hsome
  obtain ⟨hmem, hdsv, hvde, hdsde⟩ := findSegment_spec hl hfind
  have hdsl : ds ∈ l := (zip_tail_mem hmem).1
  have hdel : de ∈ l := (zip_tail_mem hmem).2
  obtain ⟨rs, hrs⟩ := Option.isSome_iff_exists.mp
    ((jsLookup_isSome_iff rp ds).mpr (by rw [hkeys]; exact hdsl))
  obtain ⟨re, hre⟩ := Option.isSome_iff_exists.mp
    ((jsLookup_isSome_iff rp de).mpr (by rw [hkeys]; exact hdel))
  have heq := customScaleFn_of_found hfind hrs hre
  exact ⟨ds, de, rs, re, hmem, hrs, hre, hdsv, hvde, hdsde,
    Option.some.inj (hv.symm.trans heq)⟩

/-- Core monotonicity of the `customScale` closure on a strictly ascending
sorted tick list whose `rangePoints` pixels are in non-decreasing order. -/
theorem customScaleFn_mono {l : List ℚ} {rp : List (ℚ × ℚ)}
    (hl : l.Pairwise (· < ·)) (h2 : 2 ≤ l.length)
    (hkeys : rp.map Prod.fst = l)
    (hsnd : rp.Pairwise (fun x y => x.2 ≤ y.2))
    {a b pa pb : ℚ} (hab : a ≤ b)
    (ha : customScaleFn l rp a = some pa)
    (hb : customScaleFn l rp b = some pb) : pa ≤ pb := by
  have hkp : rp.Pairwise (fun x y => x.1 < y.1) :=
    List.pairwise_map.mp (hkeys.symm ▸ hl)
  have hne : l ≠ [] := by intro h; rw [h] at h2; simp at h2
  obtain ⟨f, hh⟩ : ∃ f, l.head? = some f := by
    cases l with
    | nil => exact absurd rfl hne
    | cons x t => exact ⟨x, rfl⟩
  obtain ⟨lst, hla⟩ : ∃ y, l.getLast? = some y :=
    ⟨l.getLast hne, List.getLast?_eq_getLast l hne⟩
  have hfm : f ∈ l := List.mem_of_mem_head? (Option.mem_def.mpr hh)
  have hlm : lst ∈ l := List.mem_of_mem_getLast? (Option.mem_def.mpr hla)
  have hflt : f < lst := sorted_head_lt_getLast hl h2 hh hla
  obtain ⟨pf, hpf⟩ := Option.isSome_iff_exists.mp
    ((jsLookup_isSome_iff rp f).mpr (by rw [hkeys]; exact hfm))
  obtain ⟨pl, hpl⟩ := Option.isSome_iff_exists.mp
    ((jsLookup_isSome_iff rp lst).mpr (by rw [hkeys]; exact hlm))
  have hpf_mem := mem_of_jsLookup_eq_some hpf
  have hpl_mem := mem_of_jsLookup_eq_some hpl
  have hpfpl : pf ≤ pl := rp_snd_mono hkp hsnd hpf_mem hpl_mem (le_of_lt hflt)
  rcases lt_or_le a f with haf | haf
  · -- a lies below the first tick: the final fallback interpolation applies
    have hfa := customScaleFn_of_none
      (findSegment_eq_none hl hh hla (Or.inl haf)) hh hla hpf hpl
    have hpa_eq : pa = d3ScaleLinear f lst pf pl a :=
      Option.some.inj (ha.symm.trans hfa)
    rcases lt_or_le b f with hbf | hbf
    · have hfb := customScaleFn_of_none
        (findSegment_eq_none hl hh hla (Or.inl hbf)) hh hla hpf hpl
      have hpb_eq : pb = d3ScaleLinear f lst pf pl b :=
        Option.some.inj (hb.symm.trans hfb)
      rw [hpa_eq, hpb_eq]
      exact d3ScaleLinear_mono hflt hpfpl hab
    · rcases le_or_lt b lst with hbl | hbl
      · obtain ⟨ds, de, rs, re, hmem, hrs, hre, hdsb, hbde, hdsde, hpb_eq⟩ :=
          customScaleFn_inside hl hkeys hh hla h2 hbf hbl hb
        have h1 : pa ≤ pf := by
          rw [hpa_eq]
          have hmono := d3ScaleLinear_mono hflt hpfpl (le_of_lt haf)
          rwa [d3ScaleLinear_left] at hmono
        have hrsre : rs ≤ re := rp_snd_mono hkp hsnd
          (mem_of_jsLookup_eq_some hrs) (mem_of_jsLookup_eq_some hre)
          (le_of_lt hdsde)
        have h2b : pf ≤ rs := rp_snd_mono hkp hsnd hpf_mem
          (mem_of_jsLookup_eq_some hrs)
          (sorted_head_le hl hh (zip_tail_mem hmem).1)
        have h3 : rs ≤ pb := by
          rw [hpb_eq]
          exact (d3ScaleLinear_bounds hdsde hrsre hdsb hbde).1
        linarith
      · have hfb := customScaleFn_of_none
          (findSegment_eq_none hl hh hla (Or.inr hbl)) hh hla hpf hpl
        have hpb_eq : pb = d3ScaleLinear f lst pf pl b :=
          Option.some.inj (hb.symm.trans hfb)
        rw [hpa_eq, hpb_eq]
        exact d3ScaleLinear_mono hflt hpfpl hab
  · rcases le_or_lt a lst with hal | hal
    · obtain ⟨dsa, dea, rsa, rea, hmema, hrsa, hrea, hdsa, hadea, hdsdea, hpa_eq⟩ :=
        customScaleFn_inside hl hkeys hh hla h2 haf hal ha
      have hrsrea : rsa ≤ rea := rp_snd_mono hkp hsnd
        (mem_of_jsLookup_eq_some hrsa) (mem_of_jsLookup_eq_some hrea)
        (le_of_lt hdsdea)
      rcases le_or_lt b lst with hbl | hbl
      · obtain ⟨dsb, deb, rsb, reb, hmemb, hrsb, hreb, hdsb, hbdeb, hdsdeb, hpb_eq⟩ :=
          customScaleFn_inside hl hkeys hh hla h2 (le_trans haf hab) hbl hb
        have hrsreb : rsb ≤ reb := rp_snd_mono hkp hsnd
          (mem_of_jsLookup_eq_some hrsb) (mem_of_jsLookup_eq_some hreb)
          (le_of_lt hdsdeb)
        rcases pairwise_mem_cases (zip_tail_pairwise hl) hmema hmemb with
          heq | hord | hord
        · -- both values fall in the same segment
          injection heq with hds hde
          subst hds
          subst hde
          have hrseq : rsa = rsb := Option.some.inj (hrsa.symm.trans hrsb)
          have hreeq : rea = reb := Option.some.inj (hrea.symm.trans hreb)
          rw [hpa_eq, hpb_eq, ← hrseq, ← hreeq]
          exact d3ScaleLinear_mono hdsdea hrsrea hab
        · -- the segment of a ends before the segment of b starts
          have h1 : pa ≤ rea := by
            rw [hpa_eq]
            exact (d3ScaleLinear_bounds hdsdea hrsrea hdsa hadea).2
          have h2' : rea ≤ rsb := rp_snd_mono hkp hsnd
            (mem_of_jsLookup_eq_some hrea) (mem_of_jsLookup_eq_some hrsb) hord
          have h3 : rsb ≤ pb := by
            rw [hpb_eq]
            exact (d3ScaleLinear_bounds hdsdeb hrsreb hdsb hbdeb).1
          linarith
        · -- degenerate: b at or before a, forcing a = b at a shared tick
          have hdeb_dsa : deb ≤ dsa := hord
          have haeb : a = b := le_antisymm hab (by linarith)
          have ha_dsa : a = dsa := le_antisymm (by linarith) hdsa
          have hb_deb : b = deb := le_antisymm hbdeb (by linarith)
          have hkey : dsa = deb := le_antisymm (by linarith) hdeb_dsa
          have hpa2 : pa = rsa := by
            rw [hpa_eq, ha_dsa, d3ScaleLinear_left]
          have hpb2 : pb = reb := by
            rw [hpb_eq, hb_deb, d3ScaleLinear_right hdsdeb.ne]
          have hval : rsa = reb := by
            rw [hkey] at hrsa
            exact Option.some.inj (hrsa.symm.trans hreb)
          rw [hpa2, hpb2, hval]
      · -- a inside, b beyond the last tick
        have hfb := customScaleFn_of_none
          (findSegment_eq_none hl hh hla (Or.inr hbl)) hh hla hpf hpl
        have hpb_eq : pb = d3ScaleLinear f lst pf pl b :=
          Option.some.inj (hb.symm.trans hfb)
        have h1 : pa ≤ rea := by
          rw [hpa_eq]
          exact (d3ScaleLinear_bounds hdsdea hrsrea hdsa hadea).2
        have h2' : rea ≤ pl := rp_snd_mono hkp hsnd
          (mem_of_jsLookup_eq_some hrea) hpl_mem
          (sorted_le_getLast hl hla dea (zip_tail_mem hmema).2)
        have h3 : pl ≤ pb := by
          rw [hpb_eq]
          have hmono := d3ScaleLinear_mono hflt hpfpl (le_of_lt hbl)
          rwa [d3ScaleLinear_right hflt.ne] at hmono
        linarith
    · -- both values beyond the last tick
      have hbl : lst < b := lt_of_lt_of_le hal hab
      have hfa := customScaleFn_of_none
        (findSegment_eq_none hl hh hla (Or.inr hal)) hh hla hpf hpl
      have hfb := customScaleFn_of_none
        (findSegment_eq_none hl hh hla (Or.inr hbl)) hh hla hpf hpl
      have hpa_eq : pa = d3ScaleLinear f lst pf pl a :=
        Option.some.inj (ha.symm.trans hfa)
      have hpb_eq : pb = d3ScaleLinear f lst pf pl b :=
        Option.some.inj (hb.symm.trans hfb)
      rw [hpa_eq, hpb_eq]
      exact d3ScaleLinear_mono hflt hpfpl hab

/-! ### Unfolding lemmas for createCustomScale -/

theorem createCustomScale_eq_fallback (total pad : ℚ) (ticks ws : List ℚ)
    (o : Orient) (hbad : ticks.length < 2 ∨ ws.length ≠ ticks.length - 1) :
    createCustomScale total ticks ws o pad =
      { forward := fun v => some (d3ScaleLinear (-10) 10
          (if o.isHorizontal then pad else total - pad)
          (if o.isHorizontal then total - pad else pad) v)
        rangePoints := []
        effectiveLength := none
        fallback := true } := by
  rw [createCustomScale.eq_def, if_pos hbad]

theorem createCustomScale_eq_valid (total pad : ℚ) (ticks ws : List ℚ)
    (o : Orient) (h2 : 2 ≤ ticks.length) (hw : ws.length = ticks.length - 1) :
    createCustomScale total ticks ws o pad =
      { forward := customScaleFn (ticks.insertionSort (· ≤ ·))
          (buildRangePoints o.isHorizontal (ticks.insertionSort (· ≤ ·)) ws
            (if o.isHorizontal then pad else total - pad) (total - pad - pad))
        rangePoints := buildRangePoints o.isHorizontal
          (ticks.insertionSort (· ≤ ·)) ws
          (if o.isHorizontal then pad else total - pad) (total - pad - pad)
        effectiveLength := some (total - pad - pad)
        fallback := false } := by
  have hguard : ¬(ticks.length < 2 ∨ ws.length ≠ ticks.length - 1) := by
    rintro (h | h)
    · omega
    · exact h hw
  rw [createCustomScale.eq_def, if_neg hguard]
  cases o <;> simp [Orient.isHorizontal]

theorem insertionSort_eq_of_sorted_lt {ticks : List ℚ}
    (hsort : ticks.Sorted (· < ·)) :
    ticks.insertionSort (· ≤ ·) = ticks :=
  List.Sorted.insertionSort_eq (hsort.imp fun h => le_of_lt h)

theorem customScaleFn_isSome {l : List ℚ} {rp : List (ℚ × ℚ)}
    (hkeys : rp.map Prod.fst = l) (hne : l ≠ []) (v : ℚ) :
    (customScaleFn l rp v).isSome = true := by
  obtain ⟨f, hh⟩ : ∃ f, l.head? = some f := by
    cases l with
    | nil => exact absurd rfl hne
    | cons x t => exact ⟨x, rfl⟩
  obtain ⟨lst, hla⟩ : ∃ y, l.getLast? = some y :=
    ⟨l.getLast hne, List.getLast?_eq_getLast l hne⟩
  cases hfind : findSegment l v with
  | some p =>
    obtain ⟨ds, de⟩ := p
    have hmem : (ds, de) ∈ l.zip l.tail := by
      rw [findSegment] at hfind
      exact List.mem_of_find?_eq_some hfind
    have hm := zip_tail_mem hmem
    obtain ⟨rs, hrs⟩ := Option.isSome_iff_exists.mp
      ((jsLookup_isSome_iff rp ds).mpr (by rw [hkeys]; exact hm.1))
    obtain ⟨re, hre⟩ := Option.isSome_iff_exists.mp
      ((jsLookup_isSome_iff rp de).mpr (by rw [hkeys]; exact hm.2))
    rw [customScaleFn_of_found hfind hrs hre]
    rfl
  | none =>
    have hfm : f ∈ l := List.mem_of_mem_head? (Option.mem_def.mpr hh)
    have hlm : lst ∈ l := List.mem_of_mem_getLast? (Option.mem_def.mpr hla)
    obtain ⟨rf, hrf⟩ := Option.isSome_iff_exists.mp
      ((jsLookup_isSome_iff rp f).mpr (by rw [hkeys]; exact hfm))
    obtain ⟨rl, hrl⟩ := Option.isSome_iff_exists.mp
      ((jsLookup_isSome_iff rp lst).mpr (by rw [hkeys]; exact hlm))
    rw [customScaleFn_of_none hfind hh hla hrf hrl]
    rfl

/-! ### Claim theorems -/

/-- C4: for the Scenario A configuration (breakpoints `[-10,-5,-1,0,1,5,10]`,
weights `[0.1,0.1,0.3,0.3,0.1,0.1]`, extent 900, padding 50, horizontal),
`createCustomScale` yields `effectiveLength = 800`, breakpoint pixels
`50, 130, 210, 450, 690, 770, 850`, and `forward(0.5) = 570`, the midpoint
of the `[0, 1]` segment. -/
theorem c4_scenarioA_concrete :
    scenarioA.effectiveLength = some 800 ∧
    pixelOf scenarioA (-10) = some 50 ∧
    pixelOf scenarioA (-5) = some 130 ∧
    pixelOf scenarioA (-1) = some 210 ∧
    pixelOf scenarioA 0 = some 450 ∧
    pixelOf scenarioA 1 = some 690 ∧
    pixelOf scenarioA 5 = some 770 ∧
    pixelOf scenarioA 10 = some 850 ∧
    scenarioA.forward (1/2) = some 570 := by
  norm_num [scenarioA, createCustomScale, customScaleFn, findSegment, segTest,
    buildRangePoints, rangePointsLoop, jsLookup, d3ScaleLinear,
    Orient.isHorizontal, List.insertionSort, List.orderedInsert, List.find?,
    pixelOf]

/-- C1 counterexample: for Scenario A the out-of-range value 15 maps to
1050, not to the 930 the claim computes from the `[5, 10]` segment slope:
the code's fallback interpolates over the whole `[-10, 10]` domain with
slope `800 / 20 = 40`, giving `50 + 25 * 40 = 1050`. -/
theorem c1_counterexample :
    scenarioA.forward 15 = some 1050 ∧ ¬ scenarioA.forward 15 = some 930 := by
  have h : scenarioA.forward 15 = some 1050 := by
    norm_num [scenarioA, createCustomScale, customScaleFn, findSegment,
      segTest, buildRangePoints, rangePointsLoop, jsLookup, d3ScaleLinear,
      Orient.isHorizontal, List.insertionSort, List.orderedInsert,
      List.find?]
  refine ⟨h, ?_⟩
  rw [h]
  norm_num

/-- C1 amended: for every valid configuration (breakpoints strictly
ascending, length at least 2, matching weight count) and every value outside
`[breakpoints[0], breakpoints[last]]`, `forward` does not clamp but
extrapolates along the single line through
`(breakpoints[0], pixelOf(first))` and `(breakpoints[last], pixelOf(last))`
— the full-span chord, not the outermost segment's slope; in Scenario A
this gives `forward(15) = 1050`. -/
theorem c1_extrapolates_full_span (total pad v : ℚ) (ticks ws : List ℚ)
    (o : Orient) (hsort : ticks.Sorted (· < ·)) (h2 : 2 ≤ ticks.length)
    (hw : ws.length = ticks.length - 1) {f lst pf plst : ℚ}
    (hh : ticks.head? = some f) (hla : ticks.getLast? = some lst)
    (hout : v < f ∨ lst < v)
    (hpf : pixelOf (createCustomScale total ticks ws o pad) f = some pf)
    (hpl : pixelOf (createCustomScale total ticks ws o pad) lst = some plst) :
    (createCustomScale total ticks ws o pad).forward v =
      some (d3ScaleLinear f lst pf plst v) := by
  have hse := insertionSort_eq_of_sorted_lt hsort
  rw [createCustomScale_eq_valid total pad ticks ws o h2 hw] at hpf hpl ⊢
  rw [pixelOf] at hpf hpl
  dsimp only at hpf hpl ⊢
  rw [hse] at hpf hpl ⊢
  exact customScaleFn_of_none (findSegment_eq_none hsort hh hla hout)
    hh hla hpf hpl

/-- C1 witness: the amended theorem instantiated at Scenario A with
`v = 15`; the chord value is `1050`. -/
theorem c1_witness :
    scenarioA.forward 15 = some (d3ScaleLinear (-10) 10 50 850 15) ∧
    d3ScaleLinear (-10) 10 50 850 15 = 1050 := by
  constructor
  · exact c1_extrapolates_full_span 900 50 15 _ _ .horizontal
      (by norm_num [List.sorted_cons]) (by norm_num) (by norm_num)
      rfl (by rfl) (Or.inr (by norm_num))
      (by norm_num [scenarioA, createCustomScale, buildRangePoints,
        rangePointsLoop, jsLookup, Orient.isHorizontal, List.insertionSort,
        List.orderedInsert, pixelOf])
      (by norm_num [scenarioA, createCustomScale, buildRangePoints,
        rangePointsLoop, jsLookup, Orient.isHorizontal, List.insertionSort,
        List.orderedInsert, pixelOf])
  · norm_num [d3ScaleLinear]

/-- C8 counterexample: for breakpoints `[0, 10]` with an empty weight list
(weight-count mismatch, extent 900, padding 50, horizontal), the fallback
maps 0 to 450 — the plain linear scale over the fixed default domain
`[-10, 10]` — whereas the claimed fallback over
`[min(breakpoints), max(breakpoints)] = [0, 10]` would map 0 to 50. -/
theorem c8_counterexample :
    (createCustomScale 900 [0, 10] [] .horizontal 50).fallback = true ∧
    (createCustomScale 900 [0, 10] [] .horizontal 50).forward 0 = some 450 ∧
    d3ScaleLinear 0 10 50 850 0 = 50 ∧ (450 : ℚ) ≠ 50 := by
  norm_num [createCustomScale, d3ScaleLinear, Orient.isHorizontal]

/-- C8 amended: whenever validation fails (fewer than 2 breakpoints, or
weight count not equal to breakpoint count minus 1), the fallback is a plain
linear scale over the fixed domain `[-10, 10]` — regardless of the
breakpoints supplied — spanning `[padding, totalExtent - padding]`,
reversed for vertical orientation. -/
theorem c8_fallback_fixed_domain (total pad v : ℚ) (ticks ws : List ℚ)
    (o : Orient) (hbad : ticks.length < 2 ∨ ws.length ≠ ticks.length - 1) :
    (createCustomScale total ticks ws o pad).fallback = true ∧
    (createCustomScale total ticks ws o pad).forward v =
      some (d3ScaleLinear (-10) 10
        (if o.isHorizontal then pad else total - pad)
        (if o.isHorizontal then total - pad else pad) v) := by
  rw [createCustomScale_eq_fallback total pad ticks ws o hbad]
  exact ⟨rfl, rfl⟩

/-- C8 witness: the amended theorem instantiated at the counterexample
configuration. -/
theorem c8_witness :
    (createCustomScale 900 [0, 10] [] .horizontal 50).fallback = true ∧
    (createCustomScale 900 [0, 10] [] .horizontal 50).forward 0 =
      some (d3ScaleLinear (-10) 10
        (if Orient.horizontal.isHorizontal then (50 : ℚ) else 900 - 50)
        (if Orient.horizontal.isHorizontal then (900 : ℚ) - 50 else 50) 0) :=
  c8_fallback_fixed_domain 900 50 0 [0, 10] [] .horizontal (by norm_num)

/-- C2 counterexample: breakpoints `[0, 1]` with weights `[5]` (sum 5, far
outside the 1e-3 tolerance, but matching count): the builder does not fall
back — it builds the weighted piecewise scale from those weights, mapping 1
to `50 + 5 * 800 = 4050`. -/
theorem c2_counterexample :
    weightsSumError [5] = true ∧
    (createCustomScale 900 [0, 1] [5] .horizontal 50).fallback = false ∧
    (createCustomScale 900 [0, 1] [5] .horizontal 50).forward 1 =
      some 4050 := by
  refine ⟨by norm_num [weightsSumError], ?_, ?_⟩
  · norm_num [createCustomScale, Orient.isHorizontal]
  · norm_num [createCustomScale, customScaleFn, findSegment, segTest,
      buildRangePoints, rangePointsLoop, jsLookup, d3ScaleLinear,
      Orient.isHorizontal, List.insertionSort, List.orderedInsert,
      List.find?]

/-- C2 amended: a weight sum off by more than 1e-3 is only flagged (the
host app's `weightsSumError`, the prop validator's console warning); the
weights are still passed through by `parsedWeights`, and the builder still
builds the weighted piecewise scale — it neither falls back nor rejects.
Only fewer than 2 breakpoints or a weight-count mismatch cause fallback. -/
theorem c2_weight_sum_not_enforced (total pad : ℚ) (ticks ws : List ℚ)
    (o : Orient) (h2 : 2 ≤ ticks.length) (hw : ws.length = ticks.length - 1)
    (hsum : weightsSumError ws = true) :
    parsedWeights ticks ws = ws ∧
    (createCustomScale total ticks ws o pad).fallback = false ∧
    (createCustomScale total ticks ws o pad).effectiveLength =
      some (total - pad - pad) := by
  refine ⟨?_, ?_, ?_⟩
  · rw [parsedWeights, if_neg]
    rintro ⟨_, hne⟩
    exact hne hw
  · rw [createCustomScale_eq_valid total pad ticks ws o h2 hw]
  · rw [createCustomScale_eq_valid total pad ticks ws o h2 hw]

/-- C2 witness: the amended theorem at the counterexample configuration. -/
theorem c2_witness :
    parsedWeights [0, 1] [5] = [5] ∧
    (createCustomScale 900 [0, 1] [5] .horizontal 50).fallback = false ∧
    (createCustomScale 900 [0, 1] [5] .horizontal 50).effectiveLength =
      some (900 - 50 - 50) :=
  c2_weight_sum_not_enforced 900 50 [0, 1] [5] .horizontal (by norm_num)
    (by norm_num) (by norm_num [weightsSumError])

/-- C3 counterexample: breakpoints `[0, 1, 2]` with weights `[-1/2, 3/2]`
(one negative weight, sum 1): the builder does not reject — it builds the
piecewise scale, and the result is not monotonic: `forward(0) = 50` but
`forward(1) = -350`. -/
theorem c3_counterexample :
    (createCustomScale 900 [0, 1, 2] [-1/2, 3/2] .horizontal 50).fallback
      = false ∧
    (createCustomScale 900 [0, 1, 2] [-1/2, 3/2] .horizontal 50).forward 0 =
      some 50 ∧
    (createCustomScale 900 [0, 1, 2] [-1/2, 3/2] .horizontal 50).forward 1 =
      some (-350) := by
  refine ⟨?_, ?_, ?_⟩ <;>
    norm_num [createCustomScale, customScaleFn, findSegment, segTest,
      buildRangePoints, rangePointsLoop, jsLookup, d3ScaleLinear,
      Orient.isHorizontal, List.insertionSort, List.orderedInsert,
      List.find?]

/-- C3 amended: a configuration containing a negative segment weight is not
rejected: no validation in `createCustomScale` looks at weight signs, so for
any configuration with at least 2 breakpoints and matching weight count —
negative weights included — the builder builds the (possibly
non-monotonic) piecewise scale instead of reporting an error or falling
back. -/
theorem c3_negative_weight_not_rejected (total pad : ℚ) (ticks ws : List ℚ)
    (o : Orient) (h2 : 2 ≤ ticks.length) (hw : ws.length = ticks.length - 1)
    (hneg : ∃ w ∈ ws, w < 0) :
    (createCustomScale total ticks ws o pad).fallback = false ∧
    (createCustomScale total ticks ws o pad).effectiveLength =
      some (total - pad - pad) := by
  rw [createCustomScale_eq_valid total pad ticks ws o h2 hw]
  exact ⟨rfl, rfl⟩

/-- C3 witness: the amended theorem at the counterexample configuration. -/
theorem c3_witness :
    (createCustomScale 900 [0, 1, 2] [-1/2, 3/2] .horizontal 50).fallback
      = false ∧
    (createCustomScale 900 [0, 1, 2]
      [-1/2, 3/2] .horizontal 50).effectiveLength = some (900 - 50 - 50) :=
  c3_negative_weight_not_rejected 900 50 [0, 1, 2] [-1/2, 3/2] .horizontal
    (by norm_num) (by norm_num) ⟨-1/2, by norm_num, by norm_num⟩

/-- C5: for every valid configuration (breakpoints strictly ascending,
length at least 2, non-negative weights of matching count) in horizontal
orientation with positive effective length, the forward mapping is monotone
non-decreasing over all rational inputs, inside or outside the breakpoint
range. -/
theorem c5_forward_monotone (total pad : ℚ) (ticks ws : List ℚ)
    (hsort : ticks.Sorted (· < ·)) (h2 : 2 ≤ ticks.length)
    (hw : ws.length = ticks.length - 1) (hnn : ∀ w ∈ ws, 0 ≤ w)
    (heff : 0 < total - 2 * pad) {a b pa pb : ℚ} (hab : a ≤ b)
    (hpa : (createCustomScale total ticks ws .horizontal pad).forward a
      = some pa)
    (hpb : (createCustomScale total ticks ws .horizontal pad).forward b
      = some pb) :
    pa ≤ pb := by
  have hse := insertionSort_eq_of_sorted_lt hsort
  rw [createCustomScale_eq_valid total pad ticks ws .horizontal h2 hw]
    at hpa hpb
  dsimp only [Orient.isHorizontal] at hpa hpb
  rw [hse] at hpa hpb
  refine customScaleFn_mono hsort h2 ?_ ?_ hab hpa hpb
  · exact buildRangePoints_map_fst true ticks ws pad _ (by omega)
  · exact buildRangePoints_snd_pairwise ticks ws pad _ (by linarith) hnn

/-- C5 witness: in Scenario A, `forward(0) = 450 <= 570 = forward(0.5)` by
the monotonicity theorem. -/
theorem c5_witness : ∃ pa pb, scenarioA.forward 0 = some pa ∧
    scenarioA.forward (1/2) = some pb ∧ pa ≤ pb := by
  have ha : scenarioA.forward 0 = some 450 := by
    norm_num [scenarioA, createCustomScale, customScaleFn, findSegment,
      segTest, buildRangePoints, rangePointsLoop, jsLookup, d3ScaleLinear,
      Orient.isHorizontal, List.insertionSort, List.orderedInsert,
      List.find?]
  have hb : scenarioA.forward (1/2) = some 570 := by
    norm_num [scenarioA, createCustomScale, customScaleFn, findSegment,
      segTest, buildRangePoints, rangePointsLoop, jsLookup, d3ScaleLinear,
      Orient.isHorizontal, List.insertionSort, List.orderedInsert,
      List.find?]
  exact ⟨450, 570, ha, hb,
    c5_forward_monotone 900 50 [-10, -5, -1, 0, 1, 5, 10]
      [1/10, 1/10, 3/10, 3/10, 1/10, 1/10]
      (by norm_num [List.sorted_cons]) (by norm_num) (by norm_num)
      (by norm_num [List.forall_mem_cons]) (by norm_num) (by norm_num)
      ha hb⟩

/-- C6: the rendered tick list is the deduplicated union of the major,
minor and intermediate tick lists sorted strictly ascending, and the
classification cascade gives every value its strongest matching class with
precedence major over intermediate over minor; in particular a value in
both the major and minor lists is classified major. -/
theorem c6_tick_classification (majors minors inters : List ℚ) :
    (allTickValues majors minors inters).Sorted (· < ·) ∧
    (∀ x, x ∈ allTickValues majors minors inters ↔
      (x ∈ majors ∨ x ∈ minors ∨ x ∈ inters)) ∧
    (∀ x ∈ majors, classifyTick majors minors inters x = .major) ∧
    (∀ x, x ∉ majors → x ∈ inters →
      classifyTick majors minors inters x = .intermediate) ∧
    (∀ x, x ∉ majors → x ∉ inters → x ∈ minors →
      classifyTick majors minors inters x = .minor) := by
  refine ⟨?_, ?_, ?_, ?_, ?_⟩
  · have h1 : (allTickValues majors minors inters).Sorted (· ≤ ·) :=
      List.sorted_insertionSort _ _
    have h2 : (allTickValues majors minors inters).Nodup :=
      (List.perm_insertionSort _ _).nodup_iff.mpr
        (List.nodup_dedup _)
    exact (h1.and h2).imp fun h => lt_of_le_of_ne h.1 h.2
  · intro x
    simp [allTickValues, List.mem_dedup, or_assoc]
  · intro x hx
    simp [classifyTick, hx]
  · intro x hx hi
    simp [classifyTick, hx, hi]
  · intro x hx hi hm
    simp [classifyTick, hx, hi, hm]

/-- C6 witness: a value present in both the major and the minor tick list
is classified major (precedence-instance of the classification theorem). -/
theorem c6_witness : classifyTick [0, 1] [0] [] 0 = .major :=
  (c6_tick_classification [0, 1] [0] []).2.2.1 0 (by norm_num)

/-- C7: across any sequence of prop-change events that all come from the
geometry watcher's source list (value, confidence width, colors, opacities,
cross dimension, transition duration), `drawScale` — and with it
`createCustomScale` — runs zero times, and `updateIndicatorAndConfidence`
runs exactly once per event. -/
theorem c7_value_updates_no_rebuild (evs : List ComponentProp)
    (hev : ∀ e ∈ evs, e ∈ geometryWatchProps) :
    totalRebuildRuns evs = 0 ∧ totalGeometryRuns evs = evs.length := by
  have hdisj : ∀ e ∈ geometryWatchProps, e ∉ rebuildWatchProps := by decide
  induction evs with
  | nil => exact ⟨rfl, rfl⟩
  | cons e t ih =>
    have he : e ∈ geometryWatchProps := hev e (List.mem_cons_self e t)
    have hrec := ih fun x hx => hev x (List.mem_cons_of_mem e hx)
    have h1 : rebuildRunsOf e = 0 := by
      rw [rebuildRunsOf, if_neg (hdisj e he)]
    have h2 : geometryRunsOf e = 1 := by
      rw [geometryRunsOf, if_pos he, if_neg (hdisj e he)]
    constructor
    · simp only [totalRebuildRuns, List.map_cons, List.sum_cons, h1]
      simpa [totalRebuildRuns] using hrec.1
    · simp only [totalGeometryRuns, List.map_cons, List.sum_cons, h2,
        List.length_cons]
      have := hrec.2
      rw [totalGeometryRuns] at this
      omega

/-- C7 witness: two consecutive value updates trigger zero rebuilds and two
geometry updates. -/
theorem c7_witness :
    totalRebuildRuns [ComponentProp.valueProp, ComponentProp.valueProp] = 0 ∧
    totalGeometryRuns [ComponentProp.valueProp, ComponentProp.valueProp]
      = 2 :=
  c7_value_updates_no_rebuild [.valueProp, .valueProp] (by decide)

/-- C9: `createCustomScale` sorts the breakpoints internally, so two
permutations of the same breakpoint multiset (with the same weights)
produce identical scales — in particular mappings agreeing at every input
— and an unsorted breakpoint array with valid counts is never rejected as
an error. -/
theorem c9_sort_invariance (total pad : ℚ) (t1 t2 ws : List ℚ) (o : Orient)
    (hperm : t1.Perm t2) :
    createCustomScale total t1 ws o pad = createCustomScale total t2 ws o pad ∧
    (2 ≤ t1.length → ws.length = t1.length - 1 →
      (createCustomScale total t1 ws o pad).fallback = false) := by
  have hlen := hperm.length_eq
  have hsortEq : t1.insertionSort (· ≤ ·) = t2.insertionSort (· ≤ ·) :=
    List.eq_of_perm_of_sorted
      ((List.perm_insertionSort _ t1).trans
        (hperm.trans (List.perm_insertionSort _ t2).symm))
      (List.sorted_insertionSort _ t1) (List.sorted_insertionSort _ t2)
  constructor
  · simp only [createCustomScale, hlen, hsortEq]
  · intro h2 hw
    rw [createCustomScale_eq_valid total pad t1 ws o h2 hw]

/-- C9 witness: the unsorted breakpoint array `[1, 0]` yields exactly the
same scale as `[0, 1]` and is not rejected. -/
theorem c9_witness :
    createCustomScale 900 [1, 0] [1] .horizontal 50 =
      createCustomScale 900 [0, 1] [1] .horizontal 50 ∧
    (createCustomScale 900 [1, 0] [1] .horizontal 50).fallback = false := by
  have h := c9_sort_invariance 900 50 [1, 0] [0, 1] [1] .horizontal
    (List.Perm.swap 0 1 [])
  exact ⟨h.1, h.2 (by norm_num) (by norm_num)⟩

/-- C10: the forward mapping is total: for every rational input — inside
or outside the breakpoint range, and even for configurations that fail
validation — `createCustomScale` returns a pixel value, because any value
not captured by a segment is handled by the final full-span fallback
interpolation (and every `rangePoints` read hits a present key). -/
theorem c10_forward_total (total pad v : ℚ) (ticks ws : List ℚ)
    (o : Orient) :
    ((createCustomScale total ticks ws o pad).forward v).isSome = true := by
  by_cases hguard : ticks.length < 2 ∨ ws.length ≠ ticks.length - 1
  · rw [createCustomScale_eq_fallback total pad ticks ws o hguard]
    rfl
  · push_neg at hguard
    obtain ⟨h2, hw⟩ := hguard
    rw [createCustomScale_eq_valid total pad ticks ws o h2 hw]
    have hlen : (ticks.insertionSort (· ≤ ·)).length = ticks.length :=
      List.length_insertionSort _ _
    refine customScaleFn_isSome ?_ ?_ v
    · exact buildRangePoints_map_fst _ _ _ _ _ (by omega)
    · intro hnil
      rw [hnil] at hlen
      simp at hlen
      omega

end CustomLinearScale
